import Mathlib

set_option maxRecDepth 10000

/-! Verification development for the advanced_rag chunking core.

Shallow embedding of `src/chunker_py.py` (class `TokenChunker`) and
`src/markdown_chunker.py` (class `MarkdownChunker`).  External library
capabilities (the tiktoken encoder/decoder pair, `hashlib.sha256`
hex digests, Python's builtin process-salted `hash`) are passed as explicit
function parameters, mirroring the spec's treatment of them as injected
collaborators.  Python `str` is modelled as `String` (a list of Unicode
characters), Python `int` as `Int`.  Regular expressions from the source are
embedded as direct matchers implementing the exact backtracking semantics of
the concrete patterns used.
-/

/-- One fixed-size slice of the token stream.  It records the loop indices
`start_idx` / `end_idx` of `TokenChunker.split_into_chunks` together with
the token slice `tokens[start_idx:end_idx]` and its decoded text. -/
structure TokenWindow where
  start_index : Int
  end_index : Int
  tokens : List Nat
  text : String
deriving DecidableEq

/-- Number of tokens carried by a window. -/
def TokenWindow.token_count (w : TokenWindow) : Nat := w.tokens.length

/-- Configuration stored by `TokenChunker.__init__`.  Faithfully to the
source, no validation whatsoever is performed on construction. -/
structure TokenChunker where
  target_chunk_size : Int
  overlap : Int
deriving DecidableEq

/-- Clamping of one Python slice endpoint: `l[a:b]` interprets a negative
index as counting from the end and clamps the result into `[0, n]`. -/
def pyIdx (n : Nat) (i : Int) : Nat :=
  if i < 0 then ((n : Int) + i).toNat else min i.toNat n

/-- Python list slicing `l[a:b]`. -/
def pySlice (l : List Nat) (a b : Int) : List Nat :=
  (l.take (pyIdx l.length b)).drop (pyIdx l.length a)

/-- The `while start_idx < total_tokens` loop of
`TokenChunker.split_into_chunks` (src/chunker_py.py lines 50-61), with an
explicit fuel making the possibly non-terminating loop total: `none` means
the loop is still running when the fuel runs out, `some ws` means the loop
finished and produced the windows `ws`. -/
def splitLoop (decode : List Nat → String) (tc : TokenChunker) (tokens : List Nat) :
    Nat → Int → Option (List TokenWindow)
  | 0, _ => none
  | fuel + 1, start =>
      let N : Int := tokens.length
      if start < N then
        let endI : Int := min (start + tc.target_chunk_size) N
        let w : TokenWindow :=
          { start_index := start
            end_index := endI
            tokens := pySlice tokens start endI
            text := decode (pySlice tokens start endI) }
        let next : Int := if endI < N then endI - tc.overlap else endI
        (splitLoop decode tc tokens fuel next).map (fun ws => w :: ws)
      else
        some []

/-- `TokenChunker.split_into_chunks`: encode the text, then slide the
window loop from index 0. -/
def split_into_chunks (encode : String → List Nat) (decode : List Nat → String)
    (tc : TokenChunker) (text : String) (fuel : Nat) : Option (List TokenWindow) :=
  splitLoop decode tc (encode text) fuel 0

/-- Concrete stand-in for the external tokenizer used when closed theorems
evaluate the code: one token per character (its code point). -/
def encDemo (s : String) : List Nat := s.data.map Char.toNat

/-- Concrete stand-in decoder matching `encDemo`. -/
def decDemo (l : List Nat) : String := String.mk (l.map Char.ofNat)

/-- Characters matched by Python's `\s` class (ASCII range, which covers
every document appearing in this development). -/
def isPySpace (c : Char) : Bool :=
  c = ' ' ∨ c = '\t' ∨ c = '\n' ∨ c = '\r' ∨ c = Char.ofNat 11 ∨ c = Char.ofNat 12

/-- Characters matched by the `[\r\n]` class of the table pattern. -/
def isNlChar (c : Char) : Bool := c = '\r' ∨ c = '\n'

/-- Characters matched by the `[-:]` class of the table pattern. -/
def isSepChar (c : Char) : Bool := c = '-' ∨ c = ':'

/-- Characters matched by Python's `\w` class (ASCII range). -/
def isWordChar (c : Char) : Bool := c.isAlphanum ∨ c = '_'

/-- The backtick character (code point 96), used by fenced code delimiters. -/
def tickChar : Char := Char.ofNat 96

/-- Test for the backtick character. -/
def isTick (c : Char) : Bool := c = tickChar

/-- Python `str.strip()` (ASCII whitespace) on both ends. -/
def pyStrip (s : String) : String :=
  String.mk (((s.data.dropWhile isPySpace).reverse.dropWhile isPySpace).reverse)

/-- Helper for `pySplitLines`: accumulate the current line (reversed). -/
def splitLinesAux : List Char → List Char → List String
  | [], acc => [String.mk acc.reverse]
  | c :: rest, acc =>
      if c = '\n' then String.mk acc.reverse :: splitLinesAux rest []
      else splitLinesAux rest (c :: acc)

/-- Python `content.split('\n')`: split on every newline, keeping empty
pieces; the empty string yields `[""]`. -/
def pySplitLines (s : String) : List String := splitLinesAux s.data []

/-- Python `'\n'.join(lines)`. -/
def joinLines : List String → String
  | [] => ""
  | [l] => l
  | l :: ls => l ++ "\n" ++ joinLines ls

/-- The descending list `[w, w-1, ..., 1]`, used to enumerate greedy
backtracking choices from the longest candidate downward. -/
def descFrom (w : Nat) : List Nat := (List.range w).map (fun a => w - a)

/-- `MarkdownChunker._generate_chunk_id`: hash of the first 50 characters of
the content concatenated with the parent id (empty when absent), truncated
to 12 characters of the hex digest.  `sha` stands for the external
`hashlib.sha256(...).hexdigest()` capability. -/
def generate_chunk_id (sha : String → String) (content : String)
    (parent_id : Option String) : String :=
  let base := String.mk (content.data.take 50) ++
    (match parent_id with
     | some p => p
     | none => "")
  String.mk ((sha base).data.take 12)

/-- Anchored match of the heading pattern `^(#{1,6})\s+(.+)$` (MULTILINE) at
the start of `cs`, returning the heading depth and the raw text of the
second capture group.  The `#` group is greedy but cannot backtrack past a
non-`\s` follower; `\s+` is greedy and gives back characters until the `.+`
group can match at least one non-newline character. -/
def heading_match_at (cs : List Char) : Option (Nat × String) :=
  let k := (cs.takeWhile (· = '#')).length
  if 1 ≤ k ∧ k ≤ 6 then
    let rest := cs.drop k
    let w := (rest.takeWhile isPySpace).length
    if w = 0 then none
    else
      match (descFrom w).findSome? (fun j =>
        match rest.get? j with
        | some c => if c = '\n' then none else some j
        | none => none) with
      | some j => some (k, String.mk ((rest.drop j).takeWhile (· ≠ '\n')))
      | none => none
  else none

/-- `MarkdownChunker._get_heading_level`: heading depth of a line, `0` when
the line is not a heading. -/
def get_heading_level (line : String) : Nat :=
  match heading_match_at line.data with
  | some (k, _) => k
  | none => 0

/-- The title computed for a heading line in `_split_at_heading`:
`line.lstrip('#').strip()`. -/
def heading_title (line : String) : String :=
  pyStrip (String.mk (line.data.dropWhile (· = '#')))

/-- Loop of `MarkdownChunker._split_at_heading`: walk the lines, closing the
accumulated segment (kept in reverse) whenever a heading line is met.  Each
produced triple is `(joined text, level, title)` of one segment. -/
def split_at_heading_go : List String → List String → Nat → String →
    List (String × Nat × String)
  | [], cur, lvl, t => if cur.isEmpty then [] else [(joinLines cur.reverse, lvl, t)]
  | line :: rest, cur, lvl, t =>
      let hl := get_heading_level line
      if hl > 0 then
        (if cur.isEmpty then [] else [(joinLines cur.reverse, lvl, t)]) ++
          split_at_heading_go rest [line] hl (heading_title line)
      else
        split_at_heading_go rest (line :: cur) lvl t

/-- `MarkdownChunker._split_at_heading`. -/
def split_at_heading (content : String) : List (String × Nat × String) :=
  split_at_heading_go (pySplitLines content) [] 0 "Introduction"

/-- Earliest offset `j` such that the text starting `j` characters in
begins with a newline followed by three backticks — the closing delimiter
sought by the lazy `(.*?)` group of the fence pattern (DOTALL). -/
def findCloseNl : List Char → Option Nat
  | [] => none
  | c :: rest =>
      if c = '\n' ∧ (rest.take 3).all isTick ∧ rest.length ≥ 3 then some 0
      else (findCloseNl rest).map (· + 1)

/-- Match of the fence pattern <<three ticks>>`(\w*)\n(.*?)\n`<<three ticks>>
(DOTALL) anchored at the start of `cs`; returns the language group, the body
group and the total match length.  The greedy `\w*` cannot backtrack (a
newline is not a word character), and the lazy body takes the earliest
closing delimiter. -/
def tryFenceAt (cs : List Char) : Option (List Char × List Char × Nat) :=
  match cs with
  | a :: b :: c :: r =>
      if isTick a ∧ isTick b ∧ isTick c then
        let lang := r.takeWhile isWordChar
        match r.drop lang.length with
        | '\n' :: r2 =>
            (findCloseNl r2).map (fun j =>
              (lang, r2.take j, 3 + lang.length + 1 + j + 4))
        | _ => none
      else none
  | _ => none

/-- Leftmost fence match: returns the offset of the match, the language
group, the body group and the match length. -/
def findFence : List Char → Option (Nat × List Char × List Char × Nat)
  | [] => none
  | c :: rest =>
      match tryFenceAt (c :: rest) with
      | some (lang, body, n) => some (0, lang, body, n)
      | none => (findFence rest).map (fun x => (x.1 + 1, x.2))

/-- The original text of a fence match, reassembled from its parts
(`group(0)` of the pattern). -/
def fenceMatchText (lang body : List Char) : List Char :=
  [tickChar, tickChar, tickChar] ++ lang ++ ('\n' :: body) ++
    ('\n' :: [tickChar, tickChar, tickChar])

/-- `re.sub` of the fence pattern, replacing every non-overlapping match
(left to right, scanning resumes after each match) by
`"CODE_BLOCK_" + str(hash(match))`, where `pyHash` stands for Python's
builtin `hash`.  Fuel bounds the number of replacements. -/
def subCodeBlocks (pyHash : String → Int) : Nat → List Char → List Char
  | 0, s => s
  | fuel + 1, s =>
      match findFence s with
      | none => s
      | some (p, lang, body, n) =>
          s.take p ++
            ("CODE_BLOCK_" ++ toString (pyHash (String.mk (fenceMatchText lang body)))).data ++
            subCodeBlocks pyHash fuel (s.drop (p + n))

/-- `finditer` of the fence pattern: the ordered (language, body) pairs of
all non-overlapping matches. -/
def codeBlockMatches : Nat → List Char → List (String × String)
  | 0, _ => []
  | fuel + 1, s =>
      match findFence s with
      | none => []
      | some (p, lang, body, n) =>
          (String.mk lang, String.mk body) :: codeBlockMatches fuel (s.drop (p + n))

/-- Match of the link pattern `\[([^\]]+)\]\(([^)]+)\)` anchored at the
start of `cs`: returns (display text, url, match length).  Both character
classes are greedy and cannot backtrack usefully, so they are maximal
runs. -/
def tryLinkAt (cs : List Char) : Option (String × String × Nat) :=
  match cs with
  | '[' :: r =>
      let txt := r.takeWhile (· ≠ ']')
      if txt.length = 0 then none
      else
        match r.drop txt.length with
        | ']' :: '(' :: r2 =>
            let url := r2.takeWhile (· ≠ ')')
            if url.length = 0 then none
            else
              match r2.drop url.length with
              | ')' :: _ => some (String.mk txt, String.mk url, txt.length + url.length + 4)
              | _ => none
        | _ => none
  | _ => none

/-- `finditer` of the link pattern: ordered (text, url) pairs of all
non-overlapping matches, scanning resuming after each match. -/
def linkMatches : Nat → List Char → List (String × String)
  | 0, _ => []
  | _ + 1, [] => []
  | fuel + 1, c :: rest =>
      match tryLinkAt (c :: rest) with
      | some (t, u, n) => (t, u) :: linkMatches fuel ((c :: rest).drop n)
      | none => linkMatches fuel rest

/-- Indices `i` (descending) with `run[i] = '|'`: the backtracking choices
of a greedy `.*` followed by `\|`, preferred longest first.  `run` is the
maximal run of non-newline characters, since `.` never matches `\n`. -/
def pipeCandidatesDesc (run : List Char) : List Nat :=
  ((List.range run.length).filter (fun i => run.get? i = some '|')).reverse

/-- One repetition `\|.*\|[\r\n]+` of the table pattern's row group,
anchored at the start of `t`: the consumed length, with the rightmost `\|`
choice whose follower admits at least one `[\r\n]` character (nothing after
the group constrains it further). -/
def bodyRowRep (t : List Char) : Option Nat :=
  match t with
  | '|' :: rest =>
      let run := rest.takeWhile (· ≠ '\n')
      (pipeCandidatesDesc run).findSome? (fun i =>
        let nl := ((rest.drop (i + 1)).takeWhile isNlChar).length
        if nl = 0 then none else some (1 + (i + 1) + nl))
  | _ => none

/-- Greedy `(\|.*\|[\r\n]+)+`: as many row repetitions as possible, total
consumed length; `none` when not even one repetition matches. -/
def bodyRowReps : Nat → List Char → Option Nat
  | 0, _ => none
  | fuel + 1, t =>
      match bodyRowRep t with
      | none => none
      | some n =>
          match bodyRowReps fuel (t.drop n) with
          | some m => some (n + m)
          | none => some n

/-- Match of the table pattern
`\|.*\|[\r\n]+\|[-:]+\|[\r\n]+(\|.*\|[\r\n]+)+` anchored at the start of
`t`, returning the match length.  The header's second `\|` backtracks from
the rightmost candidate; every `[\r\n]+` and `[-:]+` run is forced maximal
because its follower is a character the class cannot match. -/
def tryTableAt (t : List Char) : Option Nat :=
  match t with
  | '|' :: rest =>
      let run := rest.takeWhile (· ≠ '\n')
      (pipeCandidatesDesc run).findSome? (fun i =>
        let r1 := rest.drop (i + 1)
        let nl1 := (r1.takeWhile isNlChar).length
        if nl1 = 0 then none
        else
          match r1.drop nl1 with
          | '|' :: r3 =>
              let ns := (r3.takeWhile isSepChar).length
              if ns = 0 then none
              else
                match r3.drop ns with
                | '|' :: r4 =>
                    let nl2 := (r4.takeWhile isNlChar).length
                    if nl2 = 0 then none
                    else
                      (bodyRowReps (r4.length + 1) (r4.drop nl2)).map
                        (fun b => 1 + (i + 1) + nl1 + 1 + ns + 1 + nl2 + b)
                | _ => none
          | _ => none)
  | _ => none

/-- Leftmost table match: offset and length. -/
def findTable : List Char → Option (Nat × Nat)
  | [] => none
  | c :: rest =>
      match tryTableAt (c :: rest) with
      | some n => some (0, n)
      | none => (findTable rest).map (fun x => (x.1 + 1, x.2))

/-- `re.sub` of the table pattern, replacing every non-overlapping match by
`"TABLE_" + str(hash(match))`. -/
def subTables (pyHash : String → Int) : Nat → List Char → List Char
  | 0, s => s
  | fuel + 1, s =>
      match findTable s with
      | none => s
      | some (p, n) =>
          s.take p ++
            ("TABLE_" ++ toString (pyHash (String.mk ((s.drop p).take n)))).data ++
            subTables pyHash fuel (s.drop (p + n))

/-- Metadata record produced by `MarkdownChunker._extract_metadata`: the
optional first-heading title, the fenced code blocks as (language, content)
pairs, and the links as (text, url) pairs. -/
structure MetadataInfo where
  title : Option String
  code_blocks : List (String × String)
  links : List (String × String)
deriving DecidableEq

/-- `re.search` of the heading pattern over the whole content (MULTILINE):
first match in scanning order, trying only line starts, returning the
stripped second group.  The boolean tracks whether the current position is a
line start. -/
def searchTitleGo : Bool → List Char → Option String
  | _, [] => none
  | atStart, c :: rest =>
      match (if atStart then heading_match_at (c :: rest) else none) with
      | some (_, g2) => some (pyStrip g2)
      | none => searchTitleGo (c = '\n') rest

/-- `MarkdownChunker._extract_metadata`. -/
def extract_metadata (content : String) : MetadataInfo :=
  { title := searchTitleGo true content.data
    code_blocks := codeBlockMatches (content.data.length + 1) content.data
    links := linkMatches (content.data.length + 1) content.data }

/-- The chunk record of `markdown_chunker.py` (`@dataclass MarkdownChunk`). -/
structure MarkdownChunk where
  content : String
  title : String
  level : Nat
  chunk_id : String
  parent_id : Option String
  metadata : MetadataInfo
  code_blocks : List (String × String)
  links : List (String × String)
  tables : List String
deriving DecidableEq

/-- Configuration of `MarkdownChunker.__init__`.  The three size fields are
stored but never read by `chunk_markdown`, faithfully to the source. -/
structure MarkdownChunkerConfig where
  min_chunk_size : Nat
  max_chunk_size : Nat
  overlap_size : Nat
  preserve_code_blocks : Bool
  preserve_tables : Bool
deriving DecidableEq

/-- The default configuration of `MarkdownChunker.__init__`. -/
def defaultConfig : MarkdownChunkerConfig :=
  { min_chunk_size := 100
    max_chunk_size := 1000
    overlap_size := 50
    preserve_code_blocks := true
    preserve_tables := true }

/-- `MarkdownChunker._preserve_special_blocks`: mask fenced code blocks,
then tables, with hash-derived placeholders. -/
def preserve_special_blocks (pyHash : String → Int) (cfg : MarkdownChunkerConfig)
    (content : String) : String :=
  let c1 :=
    if cfg.preserve_code_blocks then
      String.mk (subCodeBlocks pyHash (content.data.length + 1) content.data)
    else content
  if cfg.preserve_tables then
    String.mk (subTables pyHash (c1.data.length + 1) c1.data)
  else c1

/-- The `for l in range(level - 1, 0, -1)` search of `chunk_markdown`: the
id most recently recorded at the greatest level `≤` the argument, searching
downward and stopping above level 0. -/
def find_parent (pids : Nat → Option String) : Nat → Option String
  | 0 => none
  | l + 1 =>
      match pids (l + 1) with
      | some cid => some cid
      | none => find_parent pids l

/-- `parent_ids[level] = chunk_id`: functional update of the level map.  No
other level is touched — in particular deeper levels are never cleared. -/
def update_parent_ids (pids : Nat → Option String) (lvl : Nat) (cid : String) :
    Nat → Option String :=
  fun l => if l = lvl then some cid else pids l

/-- The per-segment loop of `MarkdownChunker.chunk_markdown` (lines
159-190): generate the id from the (masked) content alone, resolve the
parent from the level map when `level > 1`, record the id at this level,
extract metadata from the (masked) content, and build the chunk record. -/
def build_chunks (sha : String → String) :
    List (String × Nat × String) → (Nat → Option String) → List MarkdownChunk
  | [], _ => []
  | (c, lvl, t) :: rest, pids =>
      let cid := generate_chunk_id sha c none
      let par := if lvl > 1 then find_parent pids (lvl - 1) else none
      let md := extract_metadata c
      { content := c
        title := t
        level := lvl
        chunk_id := cid
        parent_id := par
        metadata := md
        code_blocks := md.code_blocks
        links := md.links
        tables := [] } :: build_chunks sha rest (update_parent_ids pids lvl cid)

/-- `MarkdownChunker.chunk_markdown`: mask special blocks, split at
headings, then build the chunk records.  The produced `content` fields are
the masked segment texts: the source never populates `block_map` and never
calls `_restore_special_blocks`. -/
def chunk_markdown (sha : String → String) (pyHash : String → Int)
    (cfg : MarkdownChunkerConfig) (content : String) : List MarkdownChunk :=
  build_chunks sha (split_at_heading (preserve_special_blocks pyHash cfg content))
    (fun _ => none)

/-- Concrete stand-in for the external `hashlib.sha256(...).hexdigest()`
capability, used when closed theorems evaluate the code: the input padded so
that twelve characters can always be taken. -/
def demoSha (s : String) : String := s ++ "abcdefghijkl"

/-- Concrete stand-in for Python's builtin (process-salted) `hash`, used
when closed theorems evaluate the code. -/
def demoPyHash (s : String) : Int := s.length

/-- Whether `pat` is a prefix of the second list (character lists). -/
def leadsWith : List Char → List Char → Bool
  | [], _ => true
  | _ :: _, [] => false
  | a :: pas, b :: bs => a = b ∧ leadsWith pas bs

/-- Whether `pat` occurs as a contiguous substring of the second list. -/
def hasSub (pat : List Char) : List Char → Bool
  | [] => leadsWith pat []
  | c :: rest => leadsWith pat (c :: rest) ∨ hasSub pat rest

/-- The two windows produced by the loop under `target_chunk_size = 3`,
`overlap = 1` with the `encDemo` tokenizer on `"abcde"`; used by concrete
witnesses. -/
def demoWindows : List TokenWindow :=
  [⟨0, 3, [97, 98, 99], "abc"⟩, ⟨2, 5, [99, 100, 101], "cde"⟩]

/-- Modelled from the amended parent rule (C5): walking the `(level, id)`
pairs in emission order, a segment of level `L > 1` receives as parent the
id most recently recorded at the greatest level strictly below `L`
(searching downward), absent when none exists; the segment's id is then
recorded at level `L`, and — unlike standard outline semantics — ids
recorded at deeper levels are never invalidated. -/
def no_clear_parents (pids : Nat → Option String) :
    List (Nat × String) → List (Option String)
  | [] => []
  | (lvl, cid) :: rest =>
      (if lvl > 1 then find_parent pids (lvl - 1) else none) ::
        no_clear_parents (update_parent_ids pids lvl cid) rest

/-- Document with a heading, plain text and a fenced code block, used as
C1's failing input. -/
def mdDocC1 : String := "# T\nhi\n```c\nx\n```\n"

/-- Document whose fenced code block contains a line that looks like a
heading, used as C2's failing input. -/
def mdDocC2 : String := "# A\n```\n# B\n```\nz"

/-- Document with heading levels 1, 2, 1, 3: the last heading's parent is
resolved against a stale level-2 entry from an already-closed subtree.
Used by C5. -/
def mdDocC5 : String := "# A\n## B\n# C\n### D"

/-- Document with two sections of identical text under different level-1
parents.  Used by C7. -/
def mdDocC7 : String := "# A\n## X\ns\n# B\n## X\ns"

/-- Document with a fenced code block and a Markdown link, used as C8's
failing input. -/
def mdDocC8 : String := "# T\n```py\nz\n```\nsee [x](u)\n"

/-- Document with two sections whose contents agree on their first 50
characters (heading line plus 45 `a` characters) and differ afterwards.
Used by C10's witness. -/
def mdDocC10 : String :=
  "## T\naaaaaaaaaaaaaaaaaaaaaaaaaaaaaaaaaaaaaaaaaaaaa\nP\n## T\naaaaaaaaaaaaaaaaaaaaaaaaaaaaaaaaaaaaaaaaaaaaa\nQQQ"

/-- A finished loop run whose cursor is not below the token count produces
no windows (the `while` condition fails immediately). -/
theorem splitLoop_done (decode : List Nat → String) (tc : TokenChunker)
    (tokens : List Nat) (fuel : Nat) (start : Int) (ws : List TokenWindow)
    (h : splitLoop decode tc tokens fuel start = some ws)
    (hge : ¬ start < (tokens.length : Int)) : ws = [] := by
  cases fuel with
  | zero => simp [splitLoop] at h
  | succ f =>
      simp only [splitLoop] at h
      rw [if_neg hge] at h
      exact (Option.some.inj h).symm

/-- Length of a Python slice with ordered in-range endpoints. -/
theorem pySlice_length (l : List Nat) (a b : Int) (ha : 0 ≤ a) (hab : a ≤ b)
    (hb : b ≤ (l.length : Int)) :
    ((pySlice l a b).length : Int) = b - a := by
  have hb0 : ¬ b < 0 := by omega
  have ha0 : ¬ a < 0 := by omega
  simp only [pySlice, pyIdx, if_neg hb0, if_neg ha0, List.length_drop,
    List.length_take]
  omega

/-- Invariants of the window loop under a valid configuration: every
emitted window keeps at most `target_chunk_size` tokens, consecutive
windows overlap by exactly `overlap` token indices, and the first emitted
window starts at the cursor. -/
theorem splitLoop_sound (decode : List Nat → String) (tc : TokenChunker)
    (tokens : List Nat)
    (hO : 0 < tc.overlap) (hT : tc.overlap < tc.target_chunk_size) :
    ∀ (fuel : Nat) (start : Int) (ws : List TokenWindow), 0 ≤ start →
      splitLoop decode tc tokens fuel start = some ws →
      (∀ w ∈ ws, (w.tokens.length : Int) ≤ tc.target_chunk_size)
      ∧ (∀ i (hi : i < ws.length) (hj : i + 1 < ws.length),
          (ws.get ⟨i, hi⟩).end_index - (ws.get ⟨i + 1, hj⟩).start_index = tc.overlap)
      ∧ (∀ v, ws.head? = some v → v.start_index = start) := by
  intro fuel
  induction fuel with
  | zero => intro start ws _ h; simp [splitLoop] at h
  | succ f ih =>
      intro start ws h0 h
      simp only [splitLoop] at h
      by_cases hlt : start < (tokens.length : Int)
      · rw [if_pos hlt] at h
        rcases Option.map_eq_some'.mp h with ⟨ws', hrec, hws⟩
        subst hws
        have hsmin : start ≤ min (start + tc.target_chunk_size) (tokens.length : Int) :=
          le_min (by omega) (by omega)
        have hminN : min (start + tc.target_chunk_size) (tokens.length : Int) ≤
            (tokens.length : Int) := min_le_right _ _
        have hminT : min (start + tc.target_chunk_size) (tokens.length : Int) ≤
            start + tc.target_chunk_size := min_le_left _ _
        by_cases hend : min (start + tc.target_chunk_size) (tokens.length : Int) <
            (tokens.length : Int)
        · rw [if_pos hend] at hrec
          have hnext0 : 0 ≤ min (start + tc.target_chunk_size) (tokens.length : Int) -
              tc.overlap := by
            rcases min_cases (start + tc.target_chunk_size) ((tokens.length : Int)) with
              ⟨hm, _⟩ | ⟨hm, _⟩ <;> omega
          obtain ⟨ihb, ihp, ihh⟩ := ih _ ws' hnext0 hrec
          refine ⟨?_, ?_, ?_⟩
          · intro w hw
            rcases List.mem_cons.mp hw with hw | hw
            · subst hw
              dsimp only []
              rw [pySlice_length tokens start _ h0 hsmin hminN]
              omega
            · exact ihb w hw
          · intro i hi hj
            match i, hi, hj with
            | 0, hi, hj =>
                have hlen : 0 < ws'.length := by
                  simpa using Nat.lt_of_succ_lt_succ hj
                match ws', hlen, ihh with
                | v :: ws'', _, ihh =>
                    have hv := ihh v rfl
                    simp only [List.get]
                    rw [hv]
                    omega
            | n + 1, hi, hj =>
                simpa using ihp n (Nat.lt_of_succ_lt_succ hi) (Nat.lt_of_succ_lt_succ hj)
          · intro v hv
            rw [(Option.some.inj hv).symm]
        · rw [if_neg hend] at hrec
          have hws' : ws' = [] := splitLoop_done decode tc tokens f _ ws' hrec hend
          subst hws'
          refine ⟨?_, ?_, ?_⟩
          · intro w hw
            rcases List.mem_cons.mp hw with hw | hw
            · subst hw
              dsimp only []
              rw [pySlice_length tokens start _ h0 hsmin hminN]
              omega
            · simp at hw
          · intro i hi hj
            simp at hj
          · intro v hv
            rw [(Option.some.inj hv).symm]
      · rw [if_neg hlt] at h
        rw [(Option.some.inj h).symm]
        refine ⟨by simp, ?_, by simp⟩
        intro i hi hj
        simp at hj

/-- Integer division step used by the window-count analysis:
`(a + d) / d = a / d + 1`. -/
theorem ediv_add_self (a d : Int) (hd : d ≠ 0) : (a + d) / d = a / d + 1 := by
  have := Int.add_mul_ediv_right a 1 hd
  simpa using this

/-- Window count of a completed loop run under a valid configuration: with
`m` tokens remaining ahead of the cursor, the loop emits one window when
`m ≤ target_chunk_size`, and `(m - overlap - 1) / (target - overlap) + 1`
windows otherwise. -/
theorem splitLoop_count (decode : List Nat → String) (tc : TokenChunker)
    (tokens : List Nat)
    (hO : 0 < tc.overlap) (hT : tc.overlap < tc.target_chunk_size) :
    ∀ (fuel : Nat) (start : Int) (ws : List TokenWindow),
      0 ≤ start → start < (tokens.length : Int) →
      splitLoop decode tc tokens fuel start = some ws →
      (ws.length : Int) =
        if (tokens.length : Int) - start ≤ tc.target_chunk_size then 1
        else ((tokens.length : Int) - start - tc.overlap - 1) /
              (tc.target_chunk_size - tc.overlap) + 1 := by
  intro fuel
  induction fuel with
  | zero => intro start ws _ _ h; simp [splitLoop] at h
  | succ f ih =>
      intro start ws h0 hlt h
      simp only [splitLoop] at h
      rw [if_pos hlt] at h
      rcases Option.map_eq_some'.mp h with ⟨ws', hrec, hws⟩
      subst hws
      by_cases hend : min (start + tc.target_chunk_size) (tokens.length : Int) <
          (tokens.length : Int)
      · rw [if_pos hend] at hrec
        have hmin : min (start + tc.target_chunk_size) (tokens.length : Int) =
            start + tc.target_chunk_size := by
          rcases min_cases (start + tc.target_chunk_size) ((tokens.length : Int)) with
            ⟨hm, _⟩ | ⟨hm, _⟩ <;> omega
        rw [hmin] at hrec hend
        have hnext0 : 0 ≤ start + tc.target_chunk_size - tc.overlap := by omega
        have hnextlt : start + tc.target_chunk_size - tc.overlap <
            (tokens.length : Int) := by omega
        have hcount := ih _ ws' hnext0 hnextlt hrec
        have hmT : ¬ (tokens.length : Int) - start ≤ tc.target_chunk_size := by omega
        rw [if_neg hmT]
        simp only [List.length_cons, Nat.cast_add, Nat.cast_one]
        rw [hcount]
        set m : Int := (tokens.length : Int) - start with hm
        set d : Int := tc.target_chunk_size - tc.overlap with hd
        have hd0 : d ≠ 0 := by omega
        have harg : m - (start + tc.target_chunk_size - tc.overlap) + start = m - d := by
          omega
        by_cases hrem : (tokens.length : Int) - (start + tc.target_chunk_size - tc.overlap) ≤
            tc.target_chunk_size
        · rw [if_pos hrem]
          have h1 : m - tc.overlap - 1 = (m - d - tc.overlap - 1) + d := by omega
          have h2 : (m - d - tc.overlap - 1) / d = 0 :=
            Int.ediv_eq_zero_of_lt (by omega) (by omega)
          rw [h1, ediv_add_self _ _ hd0, h2]
          omega
        · rw [if_neg hrem]
          have h1 : m - tc.overlap - 1 = (m - d - tc.overlap - 1) + d := by omega
          have h2 : (tokens.length : Int) - (start + tc.target_chunk_size - tc.overlap) -
              tc.overlap - 1 = m - d - tc.overlap - 1 := by omega
          rw [h1, ediv_add_self _ _ hd0, h2]
      · rw [if_neg hend] at hrec
        have hws' : ws' = [] := splitLoop_done decode tc tokens f _ ws' hrec hend
        subst hws'
        have hmT : (tokens.length : Int) - start ≤ tc.target_chunk_size := by
          rcases min_cases (start + tc.target_chunk_size) ((tokens.length : Int)) with
            ⟨hm, _⟩ | ⟨hm, _⟩ <;> omega
        rw [if_pos hmT]
        simp

/-- With `overlap > target_chunk_size` and more than `target_chunk_size`
tokens, the cursor moves backward at every iteration: from any nonpositive
start index the loop never finishes, whatever the fuel.  Instantiated at
`target_chunk_size = 3`, `overlap = 5` over ten tokens. -/
theorem splitLoop_diverges (decode : List Nat → String) (tokens : List Nat)
    (hlen : tokens.length = 10) :
    ∀ (fuel : Nat) (start : Int), start ≤ 0 →
      splitLoop decode ⟨3, 5⟩ tokens fuel start = none := by
  intro fuel
  induction fuel with
  | zero => intro start _; rfl
  | succ f ih =>
      intro start hs
      have hN : (tokens.length : Int) = 10 := by rw [hlen]; rfl
      simp only [splitLoop, hN]
      have h1 : start < (10 : Int) := by omega
      rw [if_pos h1]
      have h2 : min (start + (3 : Int)) (10 : Int) = start + 3 :=
        min_eq_left (by omega)
      rw [h2]
      have h3 : start + (3 : Int) < 10 := by omega
      rw [if_pos h3]
      rw [ih (start + 3 - 5) (by omega)]
      rfl

/-- C3: the claim says invalid parameters (here `overlap = 5 ≥ 3 =
target_size`) make the Tokenizer-Window Chunker raise a `ConfigurationError`
before any processing.  The source performs no validation at all and, on a
ten-token input, its `while` loop moves the cursor backward forever: the
embedded loop returns no result for any amount of fuel, i.e. the code loops
forever instead of raising. -/
theorem C3_invalid_config_never_returns :
    ∀ fuel : Nat,
      split_into_chunks encDemo decDemo ⟨3, 5⟩ "0123456789" fuel = none := by
  intro fuel
  exact splitLoop_diverges decDemo (encDemo "0123456789") (by decide) fuel 0 le_rfl

/-- C4: for every text and every valid configuration
(`0 < overlap < target_chunk_size`), every window returned by
`split_into_chunks` carries at most `target_chunk_size` tokens, and each
pair of consecutive windows satisfies
`end_index of the first - start_index of the second = overlap` (this holds
for every consecutive pair, in particular for all pairs the claim ranges
over). -/
theorem C4_bounded_size_and_exact_overlap
    (encode : String → List Nat) (decode : List Nat → String) (tc : TokenChunker)
    (text : String) (fuel : Nat) (ws : List TokenWindow)
    (hO : 0 < tc.overlap) (hT : tc.overlap < tc.target_chunk_size)
    (h : split_into_chunks encode decode tc text fuel = some ws) :
    (∀ w ∈ ws, (w.token_count : Int) ≤ tc.target_chunk_size)
    ∧ (∀ i (hi : i < ws.length) (hj : i + 1 < ws.length),
        (ws.get ⟨i, hi⟩).end_index - (ws.get ⟨i + 1, hj⟩).start_index = tc.overlap) := by
  have H := splitLoop_sound decode tc (encode text) hO hT fuel 0 ws le_rfl h
  exact ⟨fun w hw => H.1 w hw, H.2.1⟩

/-- Witness for C4: the theorem applied to the concrete run of the chunker
on `"abcde"` with `target_chunk_size = 3`, `overlap = 1`. -/
theorem C4_witness :
    (∀ w ∈ demoWindows, (w.token_count : Int) ≤ (3 : Int))
    ∧ (∀ i (hi : i < demoWindows.length) (hj : i + 1 < demoWindows.length),
        (demoWindows.get ⟨i, hi⟩).end_index - (demoWindows.get ⟨i + 1, hj⟩).start_index
          = (1 : Int)) :=
  C4_bounded_size_and_exact_overlap encDemo decDemo ⟨3, 1⟩ "abcde" 5 demoWindows
    (by decide) (by decide) (by decide)

/-- C9 counterexample: on the empty text (zero tokens) with valid
parameters `target_size = 2 > 1 = overlap`, the chunker returns zero
windows, whereas the claim's formula demands exactly 1 window whenever
`N ≤ overlap`, hence also at `N = 0`. -/
theorem C9_counterexample :
    (split_into_chunks encDemo decDemo ⟨2, 1⟩ "" 5).map (fun ws => ws.length) = some 0
    ∧ (0 : Nat) ≠ 1 := by
  exact ⟨rfl, by decide⟩

/-- C9 amended: with `0 < overlap < target_size`, a completed run over `N`
tokens yields `⌈(N - overlap) / (target_size - overlap)⌉` windows when
`N > overlap`, exactly one window when `0 < N ≤ overlap`, and zero windows
when `N = 0` (the claim instead demanded one window at `N = 0`). -/
theorem C9_window_count_amended
    (encode : String → List Nat) (decode : List Nat → String) (tc : TokenChunker)
    (text : String) (fuel : Nat) (ws : List TokenWindow)
    (hO : 0 < tc.overlap) (hT : tc.overlap < tc.target_chunk_size)
    (h : split_into_chunks encode decode tc text fuel = some ws) :
    (ws.length : Int) =
      if ((encode text).length : Int) = 0 then 0
      else if ((encode text).length : Int) ≤ tc.overlap then 1
      else (((encode text).length : Int) - tc.overlap +
            (tc.target_chunk_size - tc.overlap) - 1) /
            (tc.target_chunk_size - tc.overlap) := by
  by_cases hN : ((encode text).length : Int) = 0
  · rw [if_pos hN]
    have hws : ws = [] :=
      splitLoop_done decode tc (encode text) fuel 0 ws h (by omega)
    subst hws
    rfl
  · rw [if_neg hN]
    have hpos : (0 : Int) < ((encode text).length : Int) := by positivity
    have hcount := splitLoop_count decode tc (encode text) hO hT fuel 0 ws le_rfl
      (by omega) h
    simp only [sub_zero] at hcount
    set N : Int := ((encode text).length : Int) with hNdef
    set d : Int := tc.target_chunk_size - tc.overlap with hddef
    have hd0 : d ≠ 0 := by omega
    have hsplit : N - tc.overlap + d - 1 = (N - tc.overlap - 1) + d := by omega
    by_cases hNO : N ≤ tc.overlap
    · rw [if_pos hNO, hcount, if_pos (by omega)]
    · rw [if_neg hNO, hcount]
      rw [hsplit, ediv_add_self _ _ hd0]
      by_cases hNT : N ≤ tc.target_chunk_size
      · rw [if_pos hNT]
        have hz : (N - tc.overlap - 1) / d = 0 :=
          Int.ediv_eq_zero_of_lt (by omega) (by omega)
        rw [hz]
        omega
      · rw [if_neg hNT]

/-- Witness for C9 (amended) at the concrete run on `"abcde"` with
`target_chunk_size = 3`, `overlap = 1`: two windows, matching the ceiling
formula. -/
theorem C9_witness :
    ((demoWindows.length : Nat) : Int) =
      if ((encDemo "abcde").length : Int) = 0 then 0
      else if ((encDemo "abcde").length : Int) ≤ (1 : Int) then 1
      else (((encDemo "abcde").length : Int) - 1 + ((3 : Int) - 1) - 1) / ((3 : Int) - 1) :=
  C9_window_count_amended encDemo decDemo ⟨3, 1⟩ "abcde" 5 demoWindows
    (by decide) (by decide) (by decide)

/-- C6 counterexample: the structural chunker on the empty string returns
one chunk (empty content, sentinel title, level 0), not an empty sequence:
`"".split('\n')` is `[""]`, so the accumulated line list is non-empty and a
final segment is emitted. -/
theorem C6_counterexample :
    (chunk_markdown demoSha demoPyHash defaultConfig "").map
        (fun c => (c.content, c.title, c.level, c.parent_id))
      = [("", "Introduction", 0, none)]
    ∧ (chunk_markdown demoSha demoPyHash defaultConfig "").length ≠ 0 := by
  constructor
  · rfl
  · decide

/-- C6 amended: on the empty string the Tokenizer-Window Chunker returns an
empty window sequence (assuming the injected tokenizer encodes `""` to no
tokens), while the Structural Chunker returns exactly one chunk whose
content is empty and whose level is 0. -/
theorem C6_empty_input_amended (sha : String → String) (pyHash : String → Int)
    (cfg : MarkdownChunkerConfig) (encode : String → List Nat)
    (decode : List Nat → String) (tc : TokenChunker) (fuel : Nat)
    (henc : encode "" = []) :
    split_into_chunks encode decode tc "" (fuel + 1) = some []
    ∧ (chunk_markdown sha pyHash cfg "").map (fun c => (c.content, c.level)) = [("", 0)] := by
  constructor
  · unfold split_into_chunks
    rw [henc]
    simp [splitLoop]
  · obtain ⟨a, b, c, d, e⟩ := cfg
    cases d <;> cases e <;> rfl

/-- Witness for C6 (amended) at concrete stand-ins for the external
capabilities. -/
theorem C6_witness :
    split_into_chunks encDemo decDemo ⟨2, 1⟩ "" (0 + 1) = some []
    ∧ (chunk_markdown demoSha demoPyHash defaultConfig "").map
        (fun c => (c.content, c.level)) = [("", 0)] :=
  C6_empty_input_amended demoSha demoPyHash defaultConfig encDemo decDemo ⟨2, 1⟩ 0 rfl

/-- Every chunk built by the segment loop carries an id generated from its
own (masked) content with no parent contribution: the source calls
`_generate_chunk_id(chunk_content)` leaving the `parent_id` argument at its
`None` default. -/
theorem build_chunks_id (sha : String → String) :
    ∀ (l : List (String × Nat × String)) (pids : Nat → Option String)
      (c : MarkdownChunk), c ∈ build_chunks sha l pids →
      c.chunk_id = generate_chunk_id sha c.content none := by
  intro l
  induction l with
  | nil =>
      intro pids c hc
      simp [build_chunks] at hc
  | cons x rest ih =>
      intro pids c hc
      obtain ⟨cx, lvl, t⟩ := x
      simp only [build_chunks] at hc
      rcases List.mem_cons.mp hc with hc | hc
      · subst hc; rfl
      · exact ih _ c hc

/-- The `(level, chunk_id)` projection of the built chunks coincides with
the level and generated id of each incoming segment. -/
theorem build_chunks_levels_ids (sha : String → String) :
    ∀ (l : List (String × Nat × String)) (pids : Nat → Option String),
      (build_chunks sha l pids).map (fun c => (c.level, c.chunk_id))
        = l.map (fun x => (x.2.1, generate_chunk_id sha x.1 none)) := by
  intro l
  induction l with
  | nil => intro pids; rfl
  | cons x rest ih =>
      intro pids
      obtain ⟨cx, lvl, t⟩ := x
      simp only [build_chunks, List.map_cons]
      rw [ih]

/-- The parent ids assigned by the segment loop are exactly those computed
by the no-invalidation rule `no_clear_parents` over the emitted
`(level, id)` pairs. -/
theorem build_chunks_parents (sha : String → String) :
    ∀ (l : List (String × Nat × String)) (pids : Nat → Option String),
      (build_chunks sha l pids).map (fun c => c.parent_id)
        = no_clear_parents pids (l.map (fun x => (x.2.1, generate_chunk_id sha x.1 none))) := by
  intro l
  induction l with
  | nil => intro pids; rfl
  | cons x rest ih =>
      intro pids
      obtain ⟨cx, lvl, t⟩ := x
      simp only [build_chunks, List.map_cons, no_clear_parents]
      rw [ih]

/-- C5 counterexample: on `"# A\n## B\n# C\n### D"` the level-3 heading `D`
receives as parent the id of `## B` — a chunk of the subtree already closed
by the intervening shallower heading `# C` — because the recorded level-2 id
is never invalidated.  The claim's invalidation rule would instead give `D`
the parent `# C` (whose id differs from `## B`'s). -/
theorem C5_counterexample :
    ((chunk_markdown demoSha demoPyHash defaultConfig mdDocC5).map
        (fun c => c.parent_id))
      = [none, some "# Aabcdefghi", none, some "## Babcdefgh"]
    ∧ ((chunk_markdown demoSha demoPyHash defaultConfig mdDocC5).map
        (fun c => (c.title, c.level, c.chunk_id)))
      = [("A", 1, "# Aabcdefghi"), ("B", 2, "## Babcdefgh"),
         ("C", 1, "# Cabcdefghi"), ("D", 3, "### Dabcdefg")]
    ∧ "## Babcdefgh" ≠ "# Cabcdefghi" := by
  refine ⟨rfl, rfl, by decide⟩

/-- C5 amended: when a segment of level `L` is finalized its `parent_id` is
the id most recently recorded at the greatest level strictly below `L`
(searching downward from `L-1` to `1`), absent if none is found, and its id
is then recorded at level `L`; however ids recorded at levels greater than
`L` are never invalidated, so a heading can receive as parent a chunk from
a subtree already closed by a shallower heading between them.  Formally the
parent column of `chunk_markdown` equals the `no_clear_parents` rule run
over the chunks' own `(level, id)` pairs from an empty level map. -/
theorem C5_parent_rule_amended (sha : String → String) (pyHash : String → Int)
    (cfg : MarkdownChunkerConfig) (doc : String) :
    (chunk_markdown sha pyHash cfg doc).map (fun c => c.parent_id)
      = no_clear_parents (fun _ => none)
          ((chunk_markdown sha pyHash cfg doc).map (fun c => (c.level, c.chunk_id))) := by
  unfold chunk_markdown
  rw [build_chunks_parents, build_chunks_levels_ids]

/-- C7 counterexample: on `"# A\n## X\ns\n# B\n## X\ns"` the two `## X`
chunks have identical content but different parents (`# A` and `# B`), yet
they receive the same id — the id hashes only `content[:50]`, never the
parent id, contradicting the claim that identical content under different
parents is disambiguated. -/
theorem C7_counterexample :
    ((chunk_markdown demoSha demoPyHash defaultConfig mdDocC7).map
        (fun c => (c.chunk_id, c.parent_id)))
      = [("# Aabcdefghi", none),
         ("## X\nsabcdef", some "# Aabcdefghi"),
         ("# Babcdefghi", none),
         ("## X\nsabcdef", some "# Babcdefghi")]
    ∧ some "# Aabcdefghi" ≠ some "# Babcdefghi" := by
  refine ⟨rfl, by decide⟩

/-- C7 amended: each structural chunk's id is derived deterministically
from its (masked) content alone — the parent id is not mixed in — so two
chunks with identical content receive identical ids even under different
parents. -/
theorem C7_id_from_content_only (sha : String → String) (pyHash : String → Int)
    (cfg : MarkdownChunkerConfig) (doc : String) (i j : Nat)
    (hi : i < (chunk_markdown sha pyHash cfg doc).length)
    (hj : j < (chunk_markdown sha pyHash cfg doc).length)
    (hc : ((chunk_markdown sha pyHash cfg doc).get ⟨i, hi⟩).content
        = ((chunk_markdown sha pyHash cfg doc).get ⟨j, hj⟩).content) :
    ((chunk_markdown sha pyHash cfg doc).get ⟨i, hi⟩).chunk_id
      = ((chunk_markdown sha pyHash cfg doc).get ⟨j, hj⟩).chunk_id := by
  have h1 := build_chunks_id sha _ _ _
    (List.get_mem (chunk_markdown sha pyHash cfg doc) i hi)
  have h2 := build_chunks_id sha _ _ _
    (List.get_mem (chunk_markdown sha pyHash cfg doc) j hj)
  rw [h1, h2, hc]

/-- Witness for C7 (amended): the two identical `## X` sections of
`mdDocC7` (positions 1 and 3) receive equal ids. -/
theorem C7_witness :
    ((chunk_markdown demoSha demoPyHash defaultConfig mdDocC7).get
        ⟨1, by decide⟩).chunk_id
      = ((chunk_markdown demoSha demoPyHash defaultConfig mdDocC7).get
        ⟨3, by decide⟩).chunk_id :=
  C7_id_from_content_only demoSha demoPyHash defaultConfig mdDocC7 1 3
    (by decide) (by decide) (by decide)

/-- C10: the structural chunk id depends only on the first 50 characters of
the (masked) chunk content — whenever two chunks' masked contents agree on
their first 50 characters, `chunk_markdown` assigns them the same id
(`hash(content[:50])` truncated to 12 hex characters by the external
digest), however the rest of their content differs. -/
theorem C10_id_depends_on_first_50 (sha : String → String) (pyHash : String → Int)
    (cfg : MarkdownChunkerConfig) (doc : String) (i j : Nat)
    (hi : i < (chunk_markdown sha pyHash cfg doc).length)
    (hj : j < (chunk_markdown sha pyHash cfg doc).length)
    (hc : ((chunk_markdown sha pyHash cfg doc).get ⟨i, hi⟩).content.data.take 50
        = ((chunk_markdown sha pyHash cfg doc).get ⟨j, hj⟩).content.data.take 50) :
    ((chunk_markdown sha pyHash cfg doc).get ⟨i, hi⟩).chunk_id
      = ((chunk_markdown sha pyHash cfg doc).get ⟨j, hj⟩).chunk_id := by
  have h1 := build_chunks_id sha _ _ _
    (List.get_mem (chunk_markdown sha pyHash cfg doc) i hi)
  have h2 := build_chunks_id sha _ _ _
    (List.get_mem (chunk_markdown sha pyHash cfg doc) j hj)
  rw [h1, h2]
  unfold generate_chunk_id
  rw [hc]

/-- Witness for C10: the two sections of `mdDocC10` share their first 50
masked characters but differ afterwards, and receive the same id. -/
theorem C10_witness :
    ((chunk_markdown demoSha demoPyHash defaultConfig mdDocC10).get
        ⟨0, by decide⟩).chunk_id
      = ((chunk_markdown demoSha demoPyHash defaultConfig mdDocC10).get
        ⟨1, by decide⟩).chunk_id :=
  C10_id_depends_on_first_50 demoSha demoPyHash defaultConfig mdDocC10 0 1
    (by decide) (by decide) (by decide)

/-- C1 (code bug): on a document containing a fenced code block, the
concatenation of all structural chunk `content` fields does not reproduce
the document: `chunk_markdown` leaves `block_map` empty and never calls
`_restore_special_blocks`, so the chunk content keeps the
`CODE_BLOCK_<hash>` placeholder instead of the restored fence (and the
newline dropped at each heading boundary is also never reinstated). -/
theorem C1_roundtrip_fails :
    ((chunk_markdown demoSha demoPyHash defaultConfig mdDocC1).map (fun c => c.content))
      = ["# T\nhi\nCODE_BLOCK_10\n"]
    ∧ String.join ((chunk_markdown demoSha demoPyHash defaultConfig mdDocC1).map
        (fun c => c.content)) ≠ mdDocC1
    ∧ hasSub [tickChar, tickChar, tickChar] mdDocC1.data = true := by
  refine ⟨rfl, by decide, by decide⟩

/-- C2 (code bug): the input document contains a fenced code block, yet the
fence appears in no chunk's `content` at all (the claim demands exactly
one): masking replaces the whole fence by a placeholder and restoration
never happens.  No chunk boundary falls inside the block — the heading-like
line inside the fence does not split the document — but the block text
itself is absent from every chunk. -/
theorem C2_fence_absent_from_all_chunks :
    hasSub [tickChar, tickChar, tickChar] mdDocC2.data = true
    ∧ (chunk_markdown demoSha demoPyHash defaultConfig mdDocC2).length = 1
    ∧ ((chunk_markdown demoSha demoPyHash defaultConfig mdDocC2).countP
        (fun c => hasSub [tickChar, tickChar, tickChar] c.content.data)) = 0 := by
  refine ⟨by decide, rfl, rfl⟩

/-- C8 (code bug): metadata is extracted from the masked segment text, not
from unmasked restored content.  On a document whose section contains a
fenced `py` block and a link, the chunk's `code_blocks` is empty (the
extractor sees only the `CODE_BLOCK_<hash>` placeholder), although
extraction on the original text does find the `("py", "z")` block; only the
link — which masking leaves in place — is recovered. -/
theorem C8_code_blocks_lost_to_masking :
    ((chunk_markdown demoSha demoPyHash defaultConfig mdDocC8).map
        (fun c => (c.code_blocks, c.links)))
      = [([], [("x", "u")])]
    ∧ (extract_metadata mdDocC8).code_blocks = [("py", "z")] := by
  refine ⟨rfl, rfl⟩
